import Mathlib

/-!
# Verification of the CSV uploader's processing core

Shallow embedding of the CSV-processing and bulk-orchestration logic of
`src/csv-processor.js` and `src/salesforce-api.js`.  JavaScript strings are
modelled as Lean `String`s (operating on their character lists), JS arrays as
`List`s, JS plain objects used as ordered string maps as association lists in
insertion order, and thrown exceptions as `Except`.  Floating-point score
literals (`0.6 … 1.0`) are modelled as rationals; all scores produced by the
code lie in {0, 0.7, 0.8, 0.9, 1.0} and every comparison the code performs on
them is exact in IEEE double precision, so the rational model is faithful.
-/

namespace CsvUploader

/-- ASCII/JS whitespace recognised by `String.prototype.trim` (the code only
ever meets ASCII whitespace). -/
def isJsWs (c : Char) : Bool :=
  c = ' ' || c = '\t' || c = '\n' || c = '\r' || c = '\x0b' || c = '\x0c'

/-- `trim` on a character list: drop leading and trailing whitespace. -/
def trimL (l : List Char) : List Char :=
  ((l.dropWhile isJsWs).reverse.dropWhile isJsWs).reverse

/-- JS `String.prototype.trim`. -/
def jsTrim (s : String) : String := String.mk (trimL s.toList)

/-- JS `String.prototype.split('\n')` on a character list.  `split` always
returns at least one element: `''.split('\n') = ['']`. -/
def splitLinesL : List Char → List (List Char)
  | [] => [[]]
  | c :: r =>
    if c = '\n' then [] :: splitLinesL r
    else
      match splitLinesL r with
      | h :: t => (c :: h) :: t
      | [] => [[c]]

/-- JS `csvText.split('\n')`. -/
def splitLines (s : String) : List String := (splitLinesL s.toList).map String.mk

/-- JS `Array.prototype.join(sep)`. -/
def jsJoin (sep : String) : List String → String
  | [] => ""
  | [x] => x
  | x :: xs => x ++ sep ++ jsJoin sep xs

/-- Is `pat` a prefix of `l`? -/
def chIsPrefix : List Char → List Char → Bool
  | [], _ => true
  | _ :: _, [] => false
  | a :: as, b :: bs => a = b && chIsPrefix as bs

/-- JS `hay.includes(pat)` (substring containment) on character lists. -/
def chContains (hay pat : List Char) : Bool :=
  chIsPrefix pat hay ||
    match hay with
    | [] => false
    | _ :: r => chContains r pat

/-- JS `hay.includes(pat)` on strings. -/
def jsIncludes (hay pat : String) : Bool := chContains hay.toList pat.toList

/-- JS `String.prototype.toLowerCase` (ASCII; the code's inputs are ASCII). -/
def strLower (s : String) : String := String.mk (s.toList.map Char.toLower)

/-!
## CSV Tokenizer (`parseCSVLine`, `parseCSVText` in `src/csv-processor.js`)
-/

/-- Character scan of `parseCSVLine`: state is the in-quotes flag, the
current field backlog and the fields emitted so far.  A double quote inside
quotes followed by another double quote emits one literal quote and consumes
both; otherwise a double quote toggles the flag.  A comma outside quotes
flushes the current field (trimmed).  End of input flushes the final field. -/
def parseCSVLineAux : List Char → Bool → List Char → List (List Char) → List (List Char)
  | [], _, cur, acc => acc ++ [trimL cur]
  | '"' :: '"' :: rest2, true, cur, acc => parseCSVLineAux rest2 true (cur ++ ['"']) acc
  | '"' :: rest, inQuotes, cur, acc => parseCSVLineAux rest (!inQuotes) cur acc
  | c :: rest, inQuotes, cur, acc =>
    if c = ',' && !inQuotes then parseCSVLineAux rest inQuotes [] (acc ++ [trimL cur])
    else parseCSVLineAux rest inQuotes (cur ++ [c]) acc

/-- `parseCSVLine(line)`: split one line into trimmed cell values honouring
double-quote enclosure and doubled-quote escapes. -/
def parseCSVLine (line : String) : List String :=
  (parseCSVLineAux line.toList false [] []).map String.mk

/-- A parsed document: the header list and the row records.  A row record is
the JS object `{header: cell}` built in header order (headers are unique in
the inputs considered, so an insertion-ordered association list is a faithful
model of the JS object). -/
structure CsvDoc where
  headers : List String
  data : List (List (String × String))
  deriving DecidableEq, Repr

/-- `rowObject` construction of `parseCSVText`: zip cells positionally with
headers, missing cells (`row[index] || ''`) default to the empty string and
extra cells are dropped. -/
def rowObjectOf (headers : List String) (cells : List String) : List (String × String) :=
  headers.enum.map fun p => (p.2, cells.getD p.1 "")

/-- `parseCSVText(csvText)`: trim the whole text, split it on line feeds,
parse the first line as headers and every further non-blank line as a row.
The `lines.length === 0` guard throws `'CSV file is empty'`. -/
def parseCSVText (csvText : String) : Except String CsvDoc :=
  let lines := splitLines (jsTrim csvText)
  if lines.length = 0 then .error "CSV file is empty"
  else
    let headers := parseCSVLine (lines.getD 0 "")
    let data := (lines.drop 1).filterMap fun ln =>
      if jsTrim ln ≠ "" then some (rowObjectOf headers (parseCSVLine ln)) else none
    .ok ⟨headers, data⟩

/-!
## Value formatting and re-serialization (`formatValue`, `generateMappedCSV`)
-/

/-- Character class of the phone regex `/^[\d\s\-\(\)\.+]+$/`. -/
def isPhoneChar (c : Char) : Bool :=
  c.isDigit || isJsWs c || c = '-' || c = '(' || c = ')' || c = '.' || c = '+'

/-- `formatValue(value)`: trim; lower-case when an `@` is present; strip
phone separators when the value is all digits/separators and at least 10
characters long; canonicalize boolean spellings to `"true"`/`"false"`. -/
def formatValue (value : String) : String :=
  let v1 := jsTrim value
  let v2 := if v1.toList.contains '@' then strLower v1 else v1
  let v3 :=
    if (v2.toList ≠ [] && v2.toList.all isPhoneChar) && decide (10 ≤ v2.toList.length) then
      String.mk (v2.toList.filter fun c => c.isDigit || c = '+')
    else v2
  if strLower v3 ∈ ["true", "false", "yes", "no", "1", "0"] then
    if strLower v3 ∈ ["true", "yes", "1"] then "true" else "false"
  else v3

/-- `value.replace(/"/g, '""')`: double every double quote. -/
def doubleQuotesL : List Char → List Char
  | [] => []
  | c :: r => if c = '"' then '"' :: '"' :: doubleQuotesL r else c :: doubleQuotesL r

/-- The re-quoting step of `generateMappedCSV`: wrap in double quotes, with
internal quotes doubled, exactly when the value contains a comma, a double
quote or a newline. -/
def escapeCell (v : String) : String :=
  if v.toList.contains ',' || v.toList.contains '"' || v.toList.contains '\n' then
    "\"" ++ String.mk (doubleQuotesL v.toList) ++ "\""
  else v

/-- JS object property read `row[csvField] || ''`. -/
def getCell (row : List (String × String)) (k : String) : String :=
  (row.lookup k).getD ""

/-- `generateMappedCSV()`: fail when there is no parsed data (`csvData` is
still `null`) or the mapping table is empty; otherwise emit the mapped target
field names (mapping-table order) as the header line and, per data row, the
formatted and re-quoted cells of the mapped columns, comma-joined, all lines
joined by LF. -/
def generateMappedCSV (csvData : Option (List (List (String × String))))
    (mappings : List (String × String)) : Except String String :=
  match csvData with
  | none => .error "No data or mappings available"
  | some data =>
    if mappings.length = 0 then .error "No data or mappings available"
    else
      let mappedHeaders := mappings.map Prod.snd
      let csvLines := jsJoin "," mappedHeaders ::
        data.map fun row =>
          jsJoin "," (mappings.map fun p => escapeCell (formatValue (getCell row p.1)))
      .ok (jsJoin "\n" csvLines)

/-!
## Match scorer (`normalizeFieldName`, `calculateFieldMatchScore`,
`generateMappingSuggestions`)
-/

/-- The subset of a described Salesforce field the processor reads. -/
structure SalesforceField where
  name : String
  label : String
  required : Bool
  deriving DecidableEq, Repr

/-- Strip one trailing `"id"`, as `replace(/id$/, '')` does. -/
def stripTrailingId (l : List Char) : List Char :=
  match l.reverse with
  | 'd' :: 'i' :: r => r.reverse
  | _ => l

/-- `normalizeFieldName(fieldName)`: lower-case, keep only `[a-z0-9]`, strip a
trailing `id`. -/
def normalizeFieldName (fieldName : String) : String :=
  String.mk (stripTrailingId
    ((fieldName.toList.map Char.toLower).filter fun c =>
      ('a' ≤ c && c ≤ 'z') || ('0' ≤ c && c ≤ '9')))

/-- The fixed `commonMappings` synonym table, in source order. -/
def commonMappings : List (String × List String) :=
  [("firstname", ["firstname", "fname", "givenname"]),
   ("lastname", ["lastname", "lname", "surname", "familyname"]),
   ("email", ["email", "emailaddress", "mail"]),
   ("phone", ["phone", "phonenumber", "telephone", "mobile"]),
   ("company", ["company", "companyname", "organization", "account"]),
   ("title", ["title", "jobtitle", "position"]),
   ("street", ["street", "address", "address1", "streetaddress"]),
   ("city", ["city", "town"]),
   ("state", ["state", "province", "region"]),
   ("postalcode", ["zip", "zipcode", "postalcode", "postcode"]),
   ("country", ["country", "nation"])]

/-- `calculateFieldMatchScore(csvField, sfField)`: 1.0 on normalized equality
with the field name or label, otherwise the maximum of the containment rules
(0.8 against the name, 0.7 against the label) and the synonym rule (0.9). -/
def calculateFieldMatchScore (csvField : String) (sfField : SalesforceField) : ℚ :=
  let csvNormalized := normalizeFieldName csvField
  let sfNormalized := normalizeFieldName sfField.name
  let sfLabelNormalized := normalizeFieldName sfField.label
  if csvNormalized = sfNormalized ∨ csvNormalized = sfLabelNormalized then 1
  else
    let s0 : ℚ := 0
    let s1 := if jsIncludes csvNormalized sfNormalized || jsIncludes sfNormalized csvNormalized
      then max s0 (8/10) else s0
    let s2 := if jsIncludes csvNormalized sfLabelNormalized || jsIncludes sfLabelNormalized csvNormalized
      then max s1 (7/10) else s1
    commonMappings.foldl
      (fun score p =>
        if jsIncludes sfNormalized p.1 then
          if p.2.any (fun pat => jsIncludes csvNormalized pat) then max score (9/10) else score
        else score)
      s2

/-- The loop body of `generateMappingSuggestions`: update `(bestMatch,
bestScore)` when the current field's score is strictly greater. -/
def pickStep (sc : SalesforceField → ℚ) (acc : Option SalesforceField × ℚ)
    (sfField : SalesforceField) : Option SalesforceField × ℚ :=
  let score := sc sfField
  if acc.2 < score then (some sfField, score) else acc

/-- The per-header body of `generateMappingSuggestions`: fold over the field
catalog keeping the strictly best score (first field wins on ties), then emit
the suggestion only when the best score exceeds 0.6.  The fold starts from
`(null, 0)`; `bestMatch` is necessarily non-null whenever the best score is
positive, so the `none` fallthrough below is unreachable when it is read. -/
def suggestionFor (salesforceFields : List SalesforceField) (csvHeader : String) :
    Option (String × String) :=
  let normalizedCsvHeader := normalizeFieldName csvHeader
  let best := salesforceFields.foldl
    (pickStep (calculateFieldMatchScore normalizedCsvHeader))
    ((none : Option SalesforceField), (0 : ℚ))
  if (6/10 : ℚ) < best.2 then best.1.map fun f => (csvHeader, f.name) else none

/-- `generateMappingSuggestions(csvHeaders, salesforceFields)`: the suggestion
object, keyed by CSV header in header order. -/
def generateMappingSuggestions (csvHeaders : List String)
    (salesforceFields : List SalesforceField) : List (String × String) :=
  csvHeaders.filterMap (suggestionFor salesforceFields)

/-!
## Mapping validation (`validateMappings`)
-/

/-- First index of `v` in a list (`Array.prototype.indexOf`; in the source the
searched value always occurs, so the not-found branch is never compared). -/
def firstIdx (v : String) : List String → Nat
  | [] => 0
  | x :: xs => if x = v then 0 else firstIdx v xs + 1

/-- `mappedSfFields.filter((field, index) => mappedSfFields.indexOf(field) !==
index)`: the elements that are not the first occurrence of their value;
`l` stays the whole list while the filter walks `suffix` from index `i`. -/
def dupsFrom (l : List String) : Nat → List String → List String
  | _, [] => []
  | i, v :: rest =>
    (if firstIdx v l ≠ i then [v] else []) ++ dupsFrom l (i + 1) rest

/-- `[...new Set(duplicates)]`: dedup keeping first occurrences. -/
def dedupFirst : List String → List String :=
  go []
where
  go (seen : List String) : List String → List String
    | [] => []
    | v :: rest => if v ∈ seen then go seen rest else v :: go (v :: seen) rest

/-- `validateMappings(salesforceFields)`: one error per required field whose
name is absent from the mapped target names, then a single error listing the
deduplicated duplicated target names when any target is mapped twice. -/
def validateMappings (mappings : List (String × String))
    (salesforceFields : List SalesforceField) : List String :=
  let requiredFields := salesforceFields.filter (·.required)
  let mappedSfFields := mappings.map Prod.snd
  let errors := requiredFields.filterMap fun f =>
    if f.name ∈ mappedSfFields then none
    else some ("Required field '" ++ f.label ++ "' is not mapped")
  let duplicates := dupsFrom mappedSfFields 0 mappedSfFields
  if duplicates ≠ [] then
    errors ++ ["Duplicate mappings found for: " ++ jsJoin ", " (dedupFirst duplicates)]
  else errors

/-!
## Type inferrer (`determineFieldType`)

The branch cascade tests host-environment primitives.  The email, phone, url
and boolean tests are concrete regex/list checks and are modelled exactly;
JS numeric coercion (`!isNaN(val) && !isNaN(parseFloat(val))`) and
`Date.parse` are implementation-defined host primitives and are taken as
parameters of the embedding.
-/

/-- JS `split(sep)` for a one-character separator, on character lists. -/
def splitOnCh (sep : Char) : List Char → List (List Char)
  | [] => [[]]
  | c :: r =>
    if c = sep then [] :: splitOnCh sep r
    else
      match splitOnCh sep r with
      | h :: t => (c :: h) :: t
      | [] => [[c]]

/-- `/^[^\s@]+@[^\s@]+\.[^\s@]+$/.test(val)`: exactly one `@` (no part may
contain one), no whitespace, and the domain part splits at some dot into two
non-empty pieces. -/
def emailRegexTest (s : String) : Bool :=
  match splitOnCh '@' s.toList with
  | [a, t] =>
    a ≠ [] && a.all (fun c => !isJsWs c) && t.all (fun c => !isJsWs c) &&
      (let parts := splitOnCh '.' t
       decide (2 ≤ parts.length) && parts.headD [] ≠ [] && parts.getLastD [] ≠ [])
  | _ => false

/-- `/^[\d\s\-\(\)\.+]{10,}$/.test(val)`. -/
def phoneRegexTest (s : String) : Bool :=
  s.toList.all isPhoneChar && decide (10 ≤ s.toList.length)

/-- `/^https?:\/\//.test(val)`. -/
def urlRegexTest (s : String) : Bool :=
  chIsPrefix "http://".toList s.toList || chIsPrefix "https://".toList s.toList

/-- The result object of `determineFieldType` (`length`/`precision`/`scale`
present only on the branches that set them). -/
structure FieldTypeRes where
  type : String
  length : Option Nat := none
  precision : Option Nat := none
  scale : Option Nat := none
  deriving DecidableEq, Repr

/-- The sample of `determineFieldType`: map the column over the **first 20
rows**, then keep the non-blank values (`val && val.trim() !== ''`; a missing
cell reads as the empty string, which the first conjunct drops exactly as JS
drops `undefined`). -/
def sampleValues (data : List (List (String × String))) (csvHeader : String) : List String :=
  ((data.take 20).map fun r => getCell r csvHeader).filter fun v =>
    v ≠ "" && jsTrim v ≠ ""

/-- `determineFieldType(csvHeader)`, parameterized by the two host-primitive
tests (JS numeric coercion and `Date.parse`). -/
def determineFieldType (jsIsNumeric jsDateParsable : String → Bool)
    (csvData : Option (List (List (String × String)))) (csvHeader : String) : FieldTypeRes :=
  match csvData with
  | none => { type := "Text", length := some 255 }
  | some data =>
    if data.length = 0 then { type := "Text", length := some 255 }
    else
      let sample := sampleValues data csvHeader
      if sample.length = 0 then { type := "Text", length := some 255 }
      else if sample.any emailRegexTest then { type := "Email" }
      else if sample.any phoneRegexTest then { type := "Phone" }
      else if sample.any urlRegexTest then { type := "Url" }
      else if sample.all (fun v => strLower v ∈ ["true", "false", "yes", "no", "1", "0"]) then
        { type := "Checkbox" }
      else if sample.all jsIsNumeric then
        if sample.any (fun v => v.toList.contains '.') then
          { type := "Number", precision := some 18, scale := some 2 }
        else { type := "Number", precision := some 18, scale := some 0 }
      else if sample.any jsDateParsable then { type := "Date" }
      else
        -- `Math.max(...lengths)` over a non-empty list of naturals agrees
        -- with a fold from 0.
        let maxLength : ℕ := (sample.map fun v => v.toList.length).foldl max 0
        if 255 < maxLength then
          if maxLength ≤ 32768 then { type := "LongTextArea", length := some 32768 }
          else { type := "LongTextArea", length := some 131072 }
        else if 80 < maxLength then { type := "Text", length := some 255 }
        else { type := "Text", length := some 80 }

/-!
## Bulk job poll loop (`performBulkUpload` in `src/salesforce-api.js`)

The do-while loop increments `attempts`, throws `'Job monitoring timeout'`
when the incremented counter has reached `maxAttempts = 30`, and only then
evaluates the while-condition on the freshly fetched status.  Consequently
the loop examines the state of at most `maxAttempts - 1 = 29` fetched
statuses: the status fetched on the 30th iteration is discarded by the
throw.  `monitorAux f attempts fuel` models the loop at counter value
`attempts` with `fuel = maxAttempts - attempts - 1` state examinations left;
`f i` is the status returned by the (i+1)-th `getBulkJobStatus` call.
-/

/-- `jobStatus.state === 'InProgress' || jobStatus.state === 'JobInProgress'`. -/
def isInProgressState (s : String) : Bool :=
  s = "InProgress" || s = "JobInProgress"

/-- `const maxAttempts = 30`. -/
def maxAttempts : ℕ := 30

/-- One round of the monitoring loop: fetch `f attempts`; with no fuel left
the incremented counter has hit the bound and the loop throws before looking
at the fetched state; otherwise continue while the state is in progress. -/
def monitorAux (f : ℕ → String) : ℕ → ℕ → Except String String
  | _, 0 => .error "Job monitoring timeout"
  | attempts, fuel + 1 =>
    if isInProgressState (f attempts) then monitorAux f (attempts + 1) fuel
    else .ok (f attempts)

/-- The monitoring phase of `performBulkUpload`: poll from attempt counter 0;
a timeout error is distinct from any remotely reported terminal state, which
is returned as the loop's result. -/
def performBulkUploadPoll (f : ℕ → String) : Except String String :=
  monitorAux f 0 (maxAttempts - 1)

/-!
## Reference heap for `getMappings` (`return { ...this.mappings }`)

`getMappings` returns a fresh object holding a shallow copy of the mapping
entries.  To state the frame property the JS object store is made explicit:
references are naturals, the heap maps every reference to its entry list, and
`next` is the next fresh reference.  Object mutation (property write, property
delete) acts on one reference.
-/

/-- The JS object store. -/
structure JsHeap where
  objs : ℕ → List (String × String)
  next : ℕ

/-- JS property assignment `o[k] = v`: overwrite in place when the key
exists, otherwise append. -/
def objAssign (o : List (String × String)) (k v : String) : List (String × String) :=
  if k ∈ o.map Prod.fst then o.map fun p => if p.1 = k then (k, v) else p
  else o ++ [(k, v)]

/-- JS `delete o[k]`. -/
def objDelete (o : List (String × String)) (k : String) : List (String × String) :=
  o.filter fun p => p.1 ≠ k

/-- A mutation of one object. -/
inductive JsMutation where
  | assign (k v : String)
  | remove (k : String)
  deriving DecidableEq, Repr

/-- Apply one mutation to an object's entries. -/
def applyMutation (o : List (String × String)) : JsMutation → List (String × String)
  | .assign k v => objAssign o k v
  | .remove k => objDelete o k

/-- Apply one mutation to the object behind reference `r`. -/
def heapMutate (h : JsHeap) (r : ℕ) (m : JsMutation) : JsHeap :=
  { h with objs := Function.update h.objs r (applyMutation (h.objs r) m) }

/-- Apply a sequence of mutations to the object behind reference `r`. -/
def heapMutateMany (h : JsHeap) (r : ℕ) : List JsMutation → JsHeap
  | [] => h
  | m :: ms => heapMutateMany (heapMutate h r m) r ms

/-- `getMappings()` = `return { ...this.mappings }`: allocate a fresh object
carrying a shallow copy of the entries of the object behind `r`, and return
the heap together with the fresh reference. -/
def getMappingsOp (h : JsHeap) (r : ℕ) : JsHeap × ℕ :=
  ({ objs := Function.update h.objs h.next (h.objs r), next := h.next + 1 }, h.next)

/-!
## Specification-side definitions used for refinement comparison
-/

/-- Modelled from the spec's words for claim C3: "the first 20 non-blank
values appearing in that column" — filter the whole column for non-blank
values first, then take the first 20. -/
def specFirstTwentyNonBlank (data : List (List (String × String))) (csvHeader : String) :
    List String :=
  (((data.map fun r => getCell r csvHeader).filter fun v => v ≠ "" && jsTrim v ≠ "").take 20)

/-- The highest score any field of the catalog attains against a normalized
header (0 for an empty catalog), used to state what the suggestion fold
selects. -/
def maxScoreOf (salesforceFields : List SalesforceField) (nh : String) : ℚ :=
  salesforceFields.foldl (fun m f => max m (calculateFieldMatchScore nh f)) 0

/-!
## Auxiliary lemmas
-/

theorem splitLinesL_ne_nil (l : List Char) : splitLinesL l ≠ [] := by
  induction l with
  | nil => simp [splitLinesL]
  | cons c r ih =>
    simp only [splitLinesL]
    split
    · simp
    · split <;> simp_all

theorem splitLines_ne_nil (s : String) : splitLines s ≠ [] := by
  simpa [splitLines] using splitLinesL_ne_nil s.toList

theorem parseAux_nil (q : Bool) (cur : List Char) (acc : List (List Char)) :
    parseCSVLineAux [] q cur acc = acc ++ [trimL cur] := rfl

theorem parseAux_dquote (rest2 cur : List Char) (acc : List (List Char)) :
    parseCSVLineAux ('"' :: '"' :: rest2) true cur acc =
      parseCSVLineAux rest2 true (cur ++ ['"']) acc := rfl

theorem parseAux_quote_false (rest cur : List Char) (acc : List (List Char)) :
    parseCSVLineAux ('"' :: rest) false cur acc = parseCSVLineAux rest true cur acc := by
  cases rest with
  | nil => rfl
  | cons a r =>
    by_cases ha : a = '"' <;> simp [parseCSVLineAux, ha]

theorem parseAux_quote_true (rest cur : List Char) (acc : List (List Char))
    (h : rest.headD 'x' ≠ '"') :
    parseCSVLineAux ('"' :: rest) true cur acc = parseCSVLineAux rest false cur acc := by
  cases rest with
  | nil => rfl
  | cons a r => simp_all [parseCSVLineAux]

theorem parseAux_comma (rest cur : List Char) (acc : List (List Char)) :
    parseCSVLineAux (',' :: rest) false cur acc =
      parseCSVLineAux rest false [] (acc ++ [trimL cur]) := rfl

theorem parseAux_char (c : Char) (rest : List Char) (q : Bool) (cur : List Char)
    (acc : List (List Char)) (h1 : c ≠ '"') (h2 : (c = ',' && !q) = false) :
    parseCSVLineAux (c :: rest) q cur acc = parseCSVLineAux rest q (cur ++ [c]) acc := by
  cases q <;> simp_all [parseCSVLineAux]

/-- Scanning the quote-doubled encoding of `cs` followed by the closing quote,
from inside quotes, appends `cs` verbatim to the current field and flushes. -/
theorem parseAux_quoted_body (cs : List Char) : ∀ cur acc,
    parseCSVLineAux (doubleQuotesL cs ++ ['"']) true cur acc = acc ++ [trimL (cur ++ cs)] := by
  induction cs with
  | nil =>
    intro cur acc
    show parseCSVLineAux ['"'] true cur acc = acc ++ [trimL (cur ++ [])]
    rw [parseAux_quote_true [] cur acc (by decide), parseAux_nil]
    simp
  | cons c r ih =>
    intro cur acc
    by_cases hc : c = '"'
    · subst hc
      show parseCSVLineAux (('"' :: '"' :: doubleQuotesL r) ++ ['"']) true cur acc = _
      rw [List.cons_append, List.cons_append, parseAux_dquote, ih]
      simp
    · rw [show doubleQuotesL (c :: r) = c :: doubleQuotesL r from by simp [doubleQuotesL, hc],
        List.cons_append, parseAux_char c _ true cur acc hc (by simp), ih]
      simp

/-- Scanning a quote- and comma-free character sequence outside quotes
appends it verbatim to the current field and flushes. -/
theorem parseAux_plain (cs : List Char) : ∀ cur acc, (∀ c ∈ cs, c ≠ '"' ∧ c ≠ ',') →
    parseCSVLineAux cs false cur acc = acc ++ [trimL (cur ++ cs)] := by
  induction cs with
  | nil => intro cur acc _; rw [parseAux_nil]; simp
  | cons c r ih =>
    intro cur acc h
    have hc := h c (List.mem_cons_self c r)
    rw [parseAux_char c r false cur acc hc.1 (by simp [hc.2]),
      ih _ _ (fun x hx => h x (List.mem_cons_of_mem c hx))]
    simp

end CsvUploader

namespace CsvUploader

/-!
## Claim theorems: tokenizer
-/

/-- Claim C2 (code bug): for the empty input the tokenizer returns a parsed
document with a single empty header and no rows instead of failing; indeed it
can never fail: `split` always returns at least one element, so the
`lines.length === 0` guard that would throw `'CSV file is empty'` is dead. -/
theorem parseCSVText_empty_input_is_parsed :
    parseCSVText "" = .ok ⟨[""], []⟩ ∧ ∀ s, ∃ d, parseCSVText s = .ok d := by
  refine ⟨rfl, fun s => ?_⟩
  simp only [parseCSVText]
  rw [if_neg]
  · exact ⟨_, rfl⟩
  · have h := splitLines_ne_nil (jsTrim s)
    simpa [List.length_eq_zero] using h

/-- Claim C7 (confirmed): the literal line `"a,b""c"` tokenizes to the single
cell value `a,b"c`, and the serializer (formatting followed by re-quoting)
maps that value back to the same literal. -/
theorem quoted_cell_roundtrip_example :
    parseCSVLine "\"a,b\"\"c\"" = ["a,b\"c"] ∧
      escapeCell (formatValue "a,b\"c") = "\"a,b\"\"c\"" :=
  ⟨rfl, rfl⟩

/-- Counterexample to claim C1: the value `a\nb` (embedded newline) is
re-serialized as a quoted cell, but tokenizing the resulting document splits
it into two rows with cells `a` and `b` — the value is not recovered; the
value ` a,b` (leading space, embedded comma) is quoted, but tokenizing its
encoding trims the cell to `a,b`. -/
theorem newline_value_does_not_roundtrip :
    parseCSVText ("h\n" ++ escapeCell "a\nb") =
        .ok ⟨["h"], [[("h", "a")], [("h", "b")]]⟩ ∧
      (⟨["h"], [[("h", "a")], [("h", "b")]]⟩ : CsvDoc) ≠ ⟨["h"], [[("h", "a\nb")]]⟩ ∧
      parseCSVLine (escapeCell " a,b") = ["a,b"] ∧
      (["a,b"] : List String) ≠ [" a,b"] :=
  ⟨rfl, by decide, rfl, by decide⟩

/-- Claim C1 (amended): the quoting round-trip holds at the level of a single
tokenized line for every cell value that equals its own trim — the
re-quoting step's encoding (enclosing quotes with internal quotes doubled
when the value holds a comma, quote or newline; the bare value otherwise)
tokenizes back to exactly the value.  Values with leading or trailing
whitespace are trimmed away by the tokenizer, and values with embedded
newlines are destroyed earlier by the tokenizer's LF pre-split (see the
counterexample), which is why the claim's full-document newline round-trip
fails. -/
theorem escaped_cell_tokenizes_back (v : String) (htrim : jsTrim v = v) :
    parseCSVLine (escapeCell v) = [v] := by
  by_cases hc : (v.toList.contains ',' || v.toList.contains '"' || v.toList.contains '\n') = true
  · unfold escapeCell
    rw [if_pos hc]
    unfold parseCSVLine
    have hl : ("\"" ++ String.mk (doubleQuotesL v.toList) ++ "\"").toList
        = '"' :: (doubleQuotesL v.toList ++ ['"']) := by
      show ("\"" ++ String.mk (doubleQuotesL v.toList) ++ "\"").data = _
      rw [String.data_append, String.data_append]
      rfl
    rw [hl, parseAux_quote_false, parseAux_quoted_body]
    simpa using htrim
  · unfold escapeCell
    rw [if_neg hc]
    unfold parseCSVLine
    simp only [Bool.or_eq_true, not_or, Bool.not_eq_true] at hc
    rw [parseAux_plain]
    · simpa using htrim
    · intro c hmem
      constructor
      · intro he; subst he
        have h2 : '"' ∉ v.toList := by simpa using hc.1.2
        exact h2 hmem
      · intro he; subst he
        have h2 : ',' ∉ v.toList := by simpa using hc.1.1
        exact h2 hmem

/-- Witness for the amended claim C1 at the concrete value `x,"y`. -/
theorem escaped_cell_tokenizes_back_witness :
    jsTrim "x,\"y" = "x,\"y" ∧ parseCSVLine (escapeCell "x,\"y") = ["x,\"y"] :=
  ⟨by decide, escaped_cell_tokenizes_back "x,\"y" (by decide)⟩

/-- Counterexample to claim C3: with 20 blank cells followed by `x` in column
`h`, the inferrer's sample (non-blank values among the first 20 rows) is
empty — not the first 20 non-blank values of the column, which would be
`[x]` — and the result is Text/255 although the column has a non-blank
value. -/
theorem sample_is_first_rows_not_first_values :
    sampleValues (List.replicate 20 [("h", "")] ++ [[("h", "x")]]) "h" = [] ∧
      specFirstTwentyNonBlank (List.replicate 20 [("h", "")] ++ [[("h", "x")]]) "h" = ["x"] ∧
      determineFieldType (fun _ => false) (fun _ => false)
          (some (List.replicate 20 [("h", "")] ++ [[("h", "x")]])) "h" =
        { type := "Text", length := some 255 } :=
  ⟨rfl, rfl, rfl⟩

/-- Claim C3 (amended): the type inferrer's sample is the non-blank values
among the first 20 rows of the column — which coincides with the first 20
non-blank values of the column whenever the document has at most 20 rows —
and when the column has no non-blank value at all the result is Text with
length 255 (for any behaviour of the host numeric/date primitives). -/
theorem determineFieldType_sampling (jsNum jsDate : String → Bool)
    (data : List (List (String × String))) (hd : String) :
    (data.length ≤ 20 → sampleValues data hd = specFirstTwentyNonBlank data hd) ∧
      ((data.map fun r => getCell r hd).filter (fun v => v ≠ "" && jsTrim v ≠ "") = [] →
        determineFieldType jsNum jsDate (some data) hd = { type := "Text", length := some 255 }) := by
  constructor
  · intro hlen
    unfold sampleValues specFirstTwentyNonBlank
    rw [List.take_of_length_le hlen, List.take_of_length_le
      (le_trans (List.length_filter_le _ _) (by rw [List.length_map]; exact hlen))]
  · intro hnil
    have hs : sampleValues data hd = [] := by
      unfold sampleValues
      have hsub := ((List.take_sublist 20 data).map fun r => getCell r hd).filter
        (fun v => v ≠ "" && jsTrim v ≠ "")
      rw [hnil] at hsub
      exact List.sublist_nil.mp hsub
    by_cases hz : data.length = 0 <;> simp [determineFieldType, hs, hz]

/-- Witness for the amended claim C3 at a one-row document whose only column
is blank. -/
theorem determineFieldType_sampling_witness :
    sampleValues [[("h", "")]] "h" = specFirstTwentyNonBlank [[("h", "")]] "h" ∧
      determineFieldType (fun _ => false) (fun _ => false) (some [[("h", "")]]) "h" =
        { type := "Text", length := some 255 } :=
  ⟨(determineFieldType_sampling (fun _ => false) (fun _ => false) [[("h", "")]] "h").1
      (by decide),
    (determineFieldType_sampling (fun _ => false) (fun _ => false) [[("h", "")]] "h").2
      (by decide)⟩

/-- Counterexample to claim C4: `Email Address` normalizes to
`emailaddress`, which differs from the normalization `email` of both the
field name and label, so the exact-match rule does not fire; the score is
0.9 (via the synonym table), not 1.0. -/
theorem email_address_scores_nine_tenths :
    calculateFieldMatchScore "Email Address" ⟨"Email", "Email", false⟩ = 9/10 ∧
      ((9 : ℚ)/10) ≠ 1 := by
  constructor
  · simp +decide only [calculateFieldMatchScore, commonMappings, List.foldl]
    norm_num
  · norm_num

/-- Claim C4 (amended): the match score of header `Email Address` against
the field `{name: Email, label: Email}` is exactly 0.9, reached through the
synonym table; the 1.0 rule fires only on normalized equality with the field
name or label, which does not hold here (`emailaddress` vs `email`), though
it does hold in general: whenever the normalized header equals the
normalized field name or label the score is 1.0. -/
theorem calculateFieldMatchScore_email_address :
    calculateFieldMatchScore "Email Address" ⟨"Email", "Email", false⟩ = 9/10 ∧
      ∀ (h : String) (f : SalesforceField),
        (normalizeFieldName h = normalizeFieldName f.name ∨
          normalizeFieldName h = normalizeFieldName f.label) →
        calculateFieldMatchScore h f = 1 := by
  constructor
  · simp +decide only [calculateFieldMatchScore, commonMappings, List.foldl]
    norm_num
  · intro h f hyp
    simp only [calculateFieldMatchScore]
    rw [if_pos hyp]

/-- Witness for the amended claim C4: normalized equality forces score 1.0 at
a concrete header/field pair. -/
theorem calculateFieldMatchScore_email_address_witness :
    (normalizeFieldName "Email" = normalizeFieldName (SalesforceField.mk "Email" "Z" false).name ∨
      normalizeFieldName "Email" = normalizeFieldName (SalesforceField.mk "Email" "Z" false).label) ∧
      calculateFieldMatchScore "Email" ⟨"Email", "Z", false⟩ = 1 :=
  ⟨Or.inl (by decide),
    calculateFieldMatchScore_email_address.2 "Email" ⟨"Email", "Z", false⟩ (Or.inl (by decide))⟩

/-- Counterexample to claim C5: a status sequence that is in progress for the
first 29 polls and terminal on the 30th leaves the in-progress set within 30
polls, yet the run still times out — the 30th status is fetched but its state
is never examined. -/
theorem thirtieth_poll_status_is_discarded :
    performBulkUploadPoll (fun i => if i < 29 then "InProgress" else "JobComplete") =
        .error "Job monitoring timeout" ∧
      isInProgressState ((fun i => if i < 29 then "InProgress" else "JobComplete") 29) = false :=
  ⟨rfl, by decide⟩

/-- The monitoring loop times out exactly when every status whose state it
examines — those of the first `fuel` polls starting at the current counter —
is in progress. -/
theorem monitorAux_timeout_iff (f : ℕ → String) : ∀ fuel a,
    (monitorAux f a fuel = .error "Job monitoring timeout" ↔
      ∀ i, a ≤ i → i < a + fuel → isInProgressState (f i) = true) := by
  intro fuel
  induction fuel with
  | zero =>
    intro a
    constructor
    · intro _ i h1 h2; omega
    · intro _; rfl
  | succ n ih =>
    intro a
    show (if isInProgressState (f a) then monitorAux f (a + 1) n else .ok (f a)) = _ ↔ _
    by_cases hp : isInProgressState (f a) = true
    · rw [if_pos hp, ih (a + 1)]
      constructor
      · intro h i h1 h2
        rcases Nat.eq_or_lt_of_le h1 with he | hl
        · rw [← he]; exact hp
        · exact h i hl (by omega)
      · intro h i h1 h2
        exact h i (by omega) (by omega)
    · rw [if_neg hp]
      constructor
      · intro h; exact absurd h (by simp)
      · intro h; exact absurd (h a (Nat.le_refl a) (by omega)) hp

/-- Claim C5 (amended): the poll loop ends in the timeout error — distinct
from any remotely reported terminal state, which is returned as a success
value — if and only if the first 29 polled statuses are all in the
in-progress set.  The status fetched by the 30th poll is never examined, so
leaving the in-progress set only on the 30th poll still times out. -/
theorem performBulkUploadPoll_timeout_iff (f : ℕ → String) :
    performBulkUploadPoll f = .error "Job monitoring timeout" ↔
      ∀ i < 29, isInProgressState (f i) = true := by
  have h := monitorAux_timeout_iff f 29 0
  simpa [performBulkUploadPoll, maxAttempts] using h

/-- Counterexample to claim C6: with parsed columns `A, B` (in that order)
and mappings inserted as `B ↦ F2` then `A ↦ F1`, the generated header row is
`F2,F1` — mapping-insertion order — not the column order `F1,F2`. -/
theorem header_row_follows_mapping_order :
    generateMappedCSV (some [[("A", "x"), ("B", "y")]]) [("B", "F2"), ("A", "F1")] =
        .ok "F2,F1\ny,x" ∧
      ("F2,F1\ny,x" : String) ≠ "F1,F2\nx,y" :=
  ⟨rfl, by decide⟩

/-- Claim C6 (amended): for every parsed document and non-empty mapping
table, the generated upload payload starts with a header row consisting of
the mapped target field identifiers joined by commas in mapping-table
insertion order — not CSV column order (see the counterexample) — followed
either by nothing or by a line feed and the data rows. -/
theorem generateMappedCSV_header_first (data : List (List (String × String)))
    (m : List (String × String)) (hm : m ≠ []) :
    ∃ rest, generateMappedCSV (some data) m =
        .ok (jsJoin "," (m.map Prod.snd) ++ rest) ∧
      (rest = "" ∨ ∃ r2, rest = "\n" ++ r2) := by
  simp only [generateMappedCSV]
  rw [if_neg (by simpa [List.length_eq_zero] using hm)]
  cases data with
  | nil =>
    refine ⟨"", ?_, Or.inl rfl⟩
    simp [jsJoin]
  | cons d ds =>
    refine ⟨"\n" ++ jsJoin "\n"
        ((d :: ds).map fun row =>
          jsJoin "," (m.map fun p => escapeCell (formatValue (getCell row p.1)))), ?_,
      Or.inr ⟨_, rfl⟩⟩
    simp only [List.map_cons, jsJoin, String.append_assoc]

/-- Witness for the amended claim C6 at a one-mapping table and empty data. -/
theorem generateMappedCSV_header_first_witness :
    ([("A", "F1")] : List (String × String)) ≠ [] ∧
      ∃ rest, generateMappedCSV (some ([] : List (List (String × String)))) [("A", "F1")] =
          .ok (jsJoin "," ([("A", "F1")].map Prod.snd) ++ rest) ∧
        (rest = "" ∨ ∃ r2, rest = "\n" ++ r2) :=
  ⟨by decide, generateMappedCSV_header_first [] [("A", "F1")] (by decide)⟩

end CsvUploader

namespace CsvUploader

theorem pickStep_snd (sc : SalesforceField → ℚ) (acc : Option SalesforceField × ℚ)
    (f : SalesforceField) : (pickStep sc acc f).2 = max acc.2 (sc f) := by
  unfold pickStep
  by_cases hlt : acc.2 < sc f
  · rw [if_pos hlt]; exact (max_eq_right (le_of_lt hlt)).symm
  · rw [if_neg hlt]; exact (max_eq_left (not_lt.mp hlt)).symm

theorem pickFold_snd (sc : SalesforceField → ℚ) : ∀ (fs : List SalesforceField)
    (acc : Option SalesforceField × ℚ),
    (List.foldl (pickStep sc) acc fs).2 = List.foldl (fun m f => max m (sc f)) acc.2 fs := by
  intro fs
  induction fs with
  | nil => intro acc; rfl
  | cons f fs ih =>
    intro acc
    simp only [List.foldl]
    rw [ih, pickStep_snd]

theorem foldl_max_init_le (sc : SalesforceField → ℚ) : ∀ (fs : List SalesforceField) (a : ℚ),
    a ≤ List.foldl (fun m f => max m (sc f)) a fs := by
  intro fs
  induction fs with
  | nil => intro a; exact le_refl a
  | cons f fs ih => intro a; exact le_trans (le_max_left a (sc f)) (ih (max a (sc f)))

theorem pickFold_fst (sc : SalesforceField → ℚ) : ∀ (fs : List SalesforceField)
    (acc : Option SalesforceField × ℚ),
    (acc.2 < (List.foldl (pickStep sc) acc fs).2 →
      ∃ f, fs.find? (fun g => sc g == (List.foldl (pickStep sc) acc fs).2) = some f ∧
        (List.foldl (pickStep sc) acc fs).1 = some f) ∧
    ((List.foldl (pickStep sc) acc fs).2 ≤ acc.2 → List.foldl (pickStep sc) acc fs = acc) := by
  intro fs
  induction fs with
  | nil =>
    intro acc
    exact ⟨fun hlt => absurd hlt (lt_irrefl _), fun _ => rfl⟩
  | cons f fs ih =>
    intro acc
    simp only [List.foldl, List.find?]
    by_cases hlt : acc.2 < sc f
    · have hstep : pickStep sc acc f = (some f, sc f) := by
        unfold pickStep; rw [if_pos hlt]
      rw [hstep]
      have hge : sc f ≤ (List.foldl (pickStep sc) (some f, sc f) fs).2 := by
        rw [pickFold_snd]
        exact foldl_max_init_le sc fs (sc f)
      constructor
      · intro _
        rcases lt_or_eq_of_le hge with hl | he
        · obtain ⟨g, hfind, hfst⟩ := (ih (some f, sc f)).1 hl
          have hne : (sc f == (List.foldl (pickStep sc) (some f, sc f) fs).2) = false := by
            simp [ne_of_lt hl]
          rw [hne]
          exact ⟨g, hfind, hfst⟩
        · have hres := (ih (some f, sc f)).2 (le_of_eq he.symm)
          rw [hres]
          have hpos : (sc f == sc f) = true := by simp
          simp only [hpos]
          exact ⟨f, rfl, rfl⟩
      · intro hle
        exact absurd (lt_of_lt_of_le hlt (le_trans hge hle)) (lt_irrefl _)
    · have hstep : pickStep sc acc f = acc := by
        unfold pickStep; rw [if_neg hlt]
      rw [hstep]
      constructor
      · intro hlt2
        obtain ⟨g, hfind, hfst⟩ := (ih acc).1 hlt2
        have hne : (sc f == (List.foldl (pickStep sc) acc fs).2) = false := by
          simp
          exact ne_of_lt (lt_of_le_of_lt (not_lt.mp hlt) hlt2)
        rw [hne]
        exact ⟨g, hfind, hfst⟩
      · exact (ih acc).2

/-- Claim C8 (confirmed): for every CSV header the suggestion engine scores
every target field; it keeps the first field (in enumeration order)
attaining the strictly highest score — `find?` for the maximal score — and a
suggestion is emitted if and only if that best score is strictly greater
than 0.6, otherwise the header is left unmapped. -/
theorem suggestion_best_match (salesforceFields : List SalesforceField) (h : String) :
    ((6/10 : ℚ) < maxScoreOf salesforceFields (normalizeFieldName h) →
      ∃ f, salesforceFields.find? (fun g =>
          calculateFieldMatchScore (normalizeFieldName h) g ==
            maxScoreOf salesforceFields (normalizeFieldName h)) = some f ∧
        suggestionFor salesforceFields h = some (h, f.name)) ∧
    (maxScoreOf salesforceFields (normalizeFieldName h) ≤ 6/10 →
      suggestionFor salesforceFields h = none) := by
  have hsnd : (List.foldl (pickStep (calculateFieldMatchScore (normalizeFieldName h)))
      ((none : Option SalesforceField), (0 : ℚ)) salesforceFields).2 =
      maxScoreOf salesforceFields (normalizeFieldName h) := by
    rw [pickFold_snd]; rfl
  constructor
  · intro hgt
    have h0 : ((none : Option SalesforceField), (0 : ℚ)).2 <
        (List.foldl (pickStep (calculateFieldMatchScore (normalizeFieldName h)))
          ((none : Option SalesforceField), (0 : ℚ)) salesforceFields).2 := by
      rw [hsnd]
      calc (0 : ℚ) < 6/10 := by norm_num
        _ < _ := hgt
    obtain ⟨f, hfind, hfst⟩ :=
      (pickFold_fst (calculateFieldMatchScore (normalizeFieldName h)) salesforceFields
        ((none : Option SalesforceField), (0 : ℚ))).1 h0
    rw [hsnd] at hfind
    refine ⟨f, hfind, ?_⟩
    simp only [suggestionFor]
    rw [if_pos (by rw [hsnd]; exact hgt), hfst]
    rfl
  · intro hle
    simp only [suggestionFor]
    rw [if_neg (by rw [hsnd]; exact not_lt.mpr hle)]

/-- Witness for claim C8 at the one-field catalog `{name: Email}` and header
`Email Address` (best score 0.9 > 0.6). -/
theorem suggestion_best_match_witness :
    (6/10 : ℚ) < maxScoreOf [⟨"Email", "Email", false⟩] (normalizeFieldName "Email Address") ∧
      ∃ f, List.find? (fun g =>
          calculateFieldMatchScore (normalizeFieldName "Email Address") g ==
            maxScoreOf [⟨"Email", "Email", false⟩] (normalizeFieldName "Email Address"))
          [⟨"Email", "Email", false⟩] = some f ∧
        suggestionFor [⟨"Email", "Email", false⟩] "Email Address" =
          some ("Email Address", f.name) := by
  have hgt : (6/10 : ℚ) <
      maxScoreOf [⟨"Email", "Email", false⟩] (normalizeFieldName "Email Address") := by
    have hval : maxScoreOf [⟨"Email", "Email", false⟩] (normalizeFieldName "Email Address")
        = 9/10 := by
      simp +decide only [maxScoreOf, List.foldl, calculateFieldMatchScore, commonMappings]
      norm_num
    rw [hval]; norm_num
  exact ⟨hgt, (suggestion_best_match [⟨"Email", "Email", false⟩] "Email Address").1 hgt⟩

end CsvUploader

namespace CsvUploader

theorem firstIdx_append_self (v : String) (pre rest : List String) (h : v ∉ pre) :
    firstIdx v (pre ++ v :: rest) = pre.length := by
  induction pre with
  | nil => simp [firstIdx]
  | cons x xs ih =>
    have hx : x ≠ v := by
      intro he
      exact h (he ▸ List.mem_cons_self x xs)
    simp only [List.cons_append, firstIdx, hx, if_false, List.length_cons, List.append_eq]
    rw [ih fun hm => h (List.mem_cons_of_mem x hm)]

theorem firstIdx_lt_of_mem_left (v : String) (pre suf : List String) (h : v ∈ pre) :
    firstIdx v (pre ++ suf) < pre.length := by
  induction pre with
  | nil => cases h
  | cons x xs ih =>
    by_cases hx : x = v
    · simp [firstIdx, hx]
    · rcases List.mem_cons.mp h with he | hm
      · exact absurd he.symm hx
      · simp only [List.cons_append, firstIdx, hx, if_false, List.length_cons, List.append_eq]
        have := ih hm
        omega

theorem dupsFrom_eq_nil_iff (suf : List String) : ∀ pre : List String,
    (dupsFrom (pre ++ suf) pre.length suf = [] ↔ suf.Nodup ∧ ∀ v ∈ suf, v ∉ pre) := by
  induction suf with
  | nil => intro pre; simp [dupsFrom]
  | cons v rest ih =>
    intro pre
    simp only [dupsFrom]
    have hidx : firstIdx v (pre ++ v :: rest) ≠ pre.length ↔ v ∈ pre := by
      constructor
      · intro hne
        by_contra hnm
        exact hne (firstIdx_append_self v pre rest hnm)
      · intro hm
        exact Nat.ne_of_lt (firstIdx_lt_of_mem_left v pre (v :: rest) hm)
    have htail : dupsFrom (pre ++ v :: rest) (pre.length + 1) rest = [] ↔
        rest.Nodup ∧ ∀ u ∈ rest, u ∉ pre ++ [v] := by
      have hiha := ih (pre ++ [v])
      have hrw : (pre ++ [v]) ++ rest = pre ++ v :: rest := by simp
      have hlen : (pre ++ [v]).length = pre.length + 1 := by simp
      rw [hrw, hlen] at hiha
      exact hiha
    by_cases hm : v ∈ pre
    · rw [if_pos (hidx.mpr hm)]
      constructor
      · intro habs; simp at habs
      · rintro ⟨_, hall⟩
        exact absurd hm (hall v (List.mem_cons_self v rest))
    · rw [if_neg fun hne => hm (hidx.mp hne)]
      simp only [List.nil_append]
      rw [htail]
      constructor
      · rintro ⟨hnd, hall⟩
        refine ⟨List.nodup_cons.mpr ⟨?_, hnd⟩, ?_⟩
        · intro hvr
          have := hall v hvr
          simp at this
        · intro u hu
          rcases List.mem_cons.mp hu with he | hm2
          · exact he ▸ hm
          · have := hall u hm2
            simp only [List.mem_append, List.mem_singleton] at this
            exact fun hup => this (Or.inl hup)
      · rintro ⟨hnd, hall⟩
        have hniq := List.nodup_cons.mp hnd
        refine ⟨hniq.2, ?_⟩
        intro u hu
        simp only [List.mem_append, List.mem_singleton]
        rintro (hup | hue)
        · exact hall u (List.mem_cons_of_mem v hu) hup
        · exact hniq.1 (hue ▸ hu)

theorem duplicatesOf_nil_iff (l : List String) : dupsFrom l 0 l = [] ↔ l.Nodup := by
  have h := dupsFrom_eq_nil_iff l []
  simpa using h

end CsvUploader

namespace CsvUploader

/-- Claim C9 (confirmed): mapping validation returns a non-empty error list
exactly when a required target field is absent from the mapped target names
or some target is mapped by two or more headers; it reports each missing
required field by an error carrying its label, and the two examples of the
spec evaluate as claimed. -/
theorem validateMappings_spec (m : List (String × String)) (fs : List SalesforceField) :
    (validateMappings m fs ≠ [] ↔
      (∃ f ∈ fs, f.required = true ∧ f.name ∉ m.map Prod.snd) ∨
        ∃ t, 2 ≤ (m.map Prod.snd).count t) ∧
    (∀ f ∈ fs, f.required = true → f.name ∉ m.map Prod.snd →
      ("Required field '" ++ f.label ++ "' is not mapped") ∈ validateMappings m fs) ∧
    validateMappings [] [⟨"Email", "Email", true⟩] = ["Required field 'Email' is not mapped"] ∧
    validateMappings [("A", "Email"), ("B", "Email")] [⟨"Email", "Email", true⟩] =
      ["Duplicate mappings found for: Email"] := by
  refine ⟨?_, ?_, rfl, rfl⟩
  · simp only [validateMappings]
    have herr : ((fs.filter (·.required)).filterMap fun f =>
        if f.name ∈ m.map Prod.snd then none
        else some ("Required field '" ++ f.label ++ "' is not mapped")) = [] ↔
        ∀ f ∈ fs, f.required = true → f.name ∈ m.map Prod.snd := by
      rw [List.filterMap_eq_nil_iff]
      constructor
      · intro hall f hf hreq
        have hres := hall f (List.mem_filter.mpr ⟨hf, hreq⟩)
        by_contra hnm
        rw [if_neg hnm] at hres
        cases hres
      · intro hall f hf
        obtain ⟨hf1, hf2⟩ := List.mem_filter.mp hf
        rw [if_pos (hall f hf1 hf2)]
    have hdup := duplicatesOf_nil_iff (m.map Prod.snd)
    by_cases hd : dupsFrom (m.map Prod.snd) 0 (m.map Prod.snd) = []
    · rw [if_neg fun hne => hne hd]
      constructor
      · intro hne
        left
        by_contra hnex
        push_neg at hnex
        exact hne (herr.mpr fun f hf hreq => hnex f hf hreq)
      · rintro (⟨f, hf, hreq, hnm⟩ | ⟨t, hcnt⟩)
        · intro hnil
          exact hnm (herr.mp hnil f hf hreq)
        · exfalso
          have hle := List.nodup_iff_count_le_one.mp (hdup.mp hd) t
          omega
    · rw [if_pos hd]
      constructor
      · intro _
        right
        have hnnd : ¬ (m.map Prod.snd).Nodup := fun hnd => hd (hdup.mpr hnd)
        rw [List.nodup_iff_count_le_one] at hnnd
        push_neg at hnnd
        obtain ⟨t, ht⟩ := hnnd
        exact ⟨t, by omega⟩
      · intro _
        simp
  · intro f hf hreq hnm
    simp only [validateMappings]
    have hmem : ("Required field '" ++ f.label ++ "' is not mapped") ∈
        ((fs.filter (·.required)).filterMap fun g =>
          if g.name ∈ m.map Prod.snd then none
          else some ("Required field '" ++ g.label ++ "' is not mapped")) :=
      List.mem_filterMap.mpr ⟨f, List.mem_filter.mpr ⟨hf, hreq⟩, by rw [if_neg hnm]⟩
    split
    · exact List.mem_append_left _ hmem
    · exact hmem

/-- Witness for claim C9: the required-field error is reported at a concrete
schema with an empty mapping. -/
theorem validateMappings_spec_witness :
    (SalesforceField.mk "Phone" "Phone" true).required = true ∧
      ("Required field '" ++ (SalesforceField.mk "Phone" "Phone" true).label ++
          "' is not mapped") ∈
        validateMappings [] [⟨"Phone", "Phone", true⟩] :=
  ⟨rfl, (validateMappings_spec [] [⟨"Phone", "Phone", true⟩]).2.1
    ⟨"Phone", "Phone", true⟩ (by simp) rfl (by simp)⟩

end CsvUploader

namespace CsvUploader

theorem heapMutateMany_objs_ne : ∀ (ms : List JsMutation) (h : JsHeap) (rTarget rOther : ℕ),
    rOther ≠ rTarget → (heapMutateMany h rTarget ms).objs rOther = h.objs rOther := by
  intro ms
  induction ms with
  | nil => intro h rt ro _; rfl
  | cons m rest ih =>
    intro h rt ro hne
    show (heapMutateMany (heapMutate h rt m) rt rest).objs ro = _
    rw [ih _ rt ro hne]
    simp [heapMutate, Function.update_noteq hne]

/-- Claim C10 (confirmed): `getMappings` returns a defensive shallow copy —
after any sequence of mutations of the returned object, the internal mapping
object is unchanged, `validateMappings` and `generateMappedCSV` on the
internal mappings behave as if no mutation had occurred, and a subsequent
`getMappings` call copies the original entries. -/
theorem getMappings_defensive_copy (h : JsHeap) (r : ℕ) (ms : List JsMutation)
    (fs : List SalesforceField) (data : Option (List (List (String × String))))
    (hr : r < h.next) :
    (heapMutateMany (getMappingsOp h r).1 (getMappingsOp h r).2 ms).objs r = h.objs r ∧
      validateMappings
          ((heapMutateMany (getMappingsOp h r).1 (getMappingsOp h r).2 ms).objs r) fs =
        validateMappings (h.objs r) fs ∧
      generateMappedCSV data
          ((heapMutateMany (getMappingsOp h r).1 (getMappingsOp h r).2 ms).objs r) =
        generateMappedCSV data (h.objs r) ∧
      (getMappingsOp (heapMutateMany (getMappingsOp h r).1 (getMappingsOp h r).2 ms) r).1.objs
          (getMappingsOp (heapMutateMany (getMappingsOp h r).1 (getMappingsOp h r).2 ms) r).2 =
        h.objs r := by
  have hne : r ≠ h.next := Nat.ne_of_lt hr
  have h1 : (heapMutateMany (getMappingsOp h r).1 (getMappingsOp h r).2 ms).objs r
      = h.objs r := by
    simp only [getMappingsOp]
    rw [heapMutateMany_objs_ne ms _ h.next r hne]
    simp [Function.update_noteq hne]
  refine ⟨h1, by rw [h1], by rw [h1], ?_⟩
  simp only [getMappingsOp, Function.update_same]
  exact h1

/-- A concrete one-object heap for the claim C10 witness. -/
def exJsHeap : JsHeap := ⟨fun _ => [("A", "Email")], 1⟩

/-- Witness for claim C10: mutating the copy leaves the internal object
intact on a concrete heap. -/
theorem getMappings_defensive_copy_witness :
    0 < exJsHeap.next ∧
      (heapMutateMany (getMappingsOp exJsHeap 0).1 (getMappingsOp exJsHeap 0).2
          [JsMutation.assign "A" "X"]).objs 0 = exJsHeap.objs 0 :=
  ⟨by decide,
    (getMappings_defensive_copy exJsHeap 0 [JsMutation.assign "A" "X"] [] none (by decide)).1⟩

end CsvUploader
